/-
Verification of the payment reconciliation system: a mock payment gateway
(`remote_gateway/storage.py`: time-gated status resolution driven by the last
character of the receiver account) and a local reconciliation service
(`src/routes/payments.py`: payment creation with forwarding to the gateway,
and lookup with merge of polled gateway state).

The Python code is shallowly embedded: strings are `List Char`, timestamps and
the float `amount` are `Int` (no arithmetic on amounts occurs in the verified
code), per-request database/HTTP effects are explicit state passing, and the
outcome of a fallible remote call is passed in as a `TransportResult` value.
-/
import Mathlib

namespace Payments

/-- The four payment statuses of `remote_gateway/models.py` `PaymentStatus`;
the local service stores the same four string values. -/
inductive PaymentStatus
  | pending
  | settled
  | returned
  | failed
deriving DecidableEq, Repr

/-- Outcome of a remote HTTP call: either an `httpx.HTTPError`
(connection failure, timeout, or non-success response raised by
`raise_for_status`) or the decoded response. -/
inductive TransportResult (α : Type)
  | transportError
  | ok (a : α)
deriving DecidableEq

/-- A payment submission: the fields shared by the local `PaymentCreate`
schema and the gateway `PaymentSubmission` model. -/
structure Submission where
  sender_account : List Char
  receiver_account : List Char
  amount : Int
  memo : Option (List Char)
deriving DecidableEq

/-- Gateway-side validation of `PaymentSubmission` (`remote_gateway/models.py`):
`min_length=1` on both accounts and `gt=0` on the amount. A submission failing
this is rejected with a 422 response, which the local client surfaces as an
`httpx.HTTPError`. -/
def gwValid (sub : Submission) : Bool :=
  decide (sub.sender_account ≠ []) && decide (sub.receiver_account ≠ []) &&
    decide (0 < sub.amount)

/-- Gateway-side `PaymentRecord` (`remote_gateway/storage.py`). Confirmation
ids are modelled as naturals (the code uses UUID strings). -/
structure GwRecord where
  confirmation_id : Nat
  sender_account : List Char
  receiver_account : List Char
  amount : Int
  memo : Option (List Char)
  status : PaymentStatus
  created_at : Int
  updated_at : Int
deriving DecidableEq

/-- `PaymentRecord.__init__`: a fresh record is pending with
`updated_at = created_at`. -/
def mkPaymentRecord (sub : Submission) (cid : Nat) (now : Int) : GwRecord where
  confirmation_id := cid
  sender_account := sub.sender_account
  receiver_account := sub.receiver_account
  amount := sub.amount
  memo := sub.memo
  status := PaymentStatus.pending
  created_at := now
  updated_at := now

/-- The numeric value `int(c)` of an ASCII digit character. -/
def digitVal (c : Char) : Nat := c.toNat - '0'.toNat

/-- `PaymentRecord.get_final_status`: take the last character of
`receiver_account` (`[-1]` raises `IndexError` on the empty string, modelled
as `none`); its numeric value if it is a digit, else `0`; map `≤ 3` to
settled, `≤ 6` to returned, else failed. -/
def get_final_status (receiver_account : List Char) : Option PaymentStatus :=
  match receiver_account.getLast? with
  | none => none
  | some c =>
    let last_digit := if c.isDigit then digitVal c else 0
    some (if last_digit ≤ 3 then PaymentStatus.settled
          else if last_digit ≤ 6 then PaymentStatus.returned
          else PaymentStatus.failed)

/-- `PaymentRecord.should_resolve`: the elapsed seconds since creation have
reached the configured delay. -/
def should_resolve (created_at now delay_seconds : Int) : Bool :=
  delay_seconds ≤ now - created_at

/-- The per-record body of `InMemoryStorage.get_all_statuses`: a pending
record past the delay is resolved in place to its final status with
`updated_at = now`; any other record is untouched. The `none` branch of
`get_final_status` (empty receiver account) would raise in Python; it is
unreachable for records accepted through the validated boundary, and the
record is left unchanged there. -/
def resolveRecord (delay now : Int) (r : GwRecord) : GwRecord :=
  if r.status = PaymentStatus.pending ∧
      should_resolve r.created_at now delay = true then
    match get_final_status r.receiver_account with
    | some st => { r with status := st, updated_at := now }
    | none => r
  else r

/-- `InMemoryStorage.get_all_statuses`: resolve every due pending record,
returning the whole (updated) store. -/
def get_all_statuses (delay now : Int) (store : List GwRecord) : List GwRecord :=
  store.map (resolveRecord delay now)

/-- C1: For every non-empty receiver account string, once the elapsed time
since creation is at least the delay threshold, resolution of a pending
record yields settled when the last character is a digit `0`-`3` or a
non-digit, returned when it is a digit `4`-`6`, and failed when it is a
digit `7`-`9`. -/
theorem c1_partition (delay now : Int) (r : GwRecord) (c : Char)
    (hlast : r.receiver_account.getLast? = some c)
    (hpend : r.status = PaymentStatus.pending)
    (ht : delay ≤ now - r.created_at) :
    ((¬ c.isDigit ∨ digitVal c ≤ 3) →
        (resolveRecord delay now r).status = PaymentStatus.settled) ∧
    ((c.isDigit ∧ 4 ≤ digitVal c ∧ digitVal c ≤ 6) →
        (resolveRecord delay now r).status = PaymentStatus.returned) ∧
    ((c.isDigit ∧ 7 ≤ digitVal c) →
        (resolveRecord delay now r).status = PaymentStatus.failed) := by
  have hcond : r.status = PaymentStatus.pending ∧
      should_resolve r.created_at now delay = true := by
    refine ⟨hpend, ?_⟩
    simp [should_resolve, ht]
  rw [resolveRecord, if_pos hcond, get_final_status, hlast]
  by_cases hd : c.isDigit
  · simp only [hd, if_true]
    refine ⟨?_, ?_, ?_⟩
    · rintro (h | h)
      · exact absurd trivial h
      · simp [h]
    · rintro ⟨-, h4, h6⟩
      have h3 : ¬ digitVal c ≤ 3 := by omega
      simp [h3, h6]
    · rintro ⟨-, h7⟩
      have h3 : ¬ digitVal c ≤ 3 := by omega
      have h6 : ¬ digitVal c ≤ 6 := by omega
      simp [h3, h6]
  · simp only [hd, if_false]
    refine ⟨fun _ => by simp, ?_, ?_⟩
    · rintro ⟨h, -⟩; simp at h
    · rintro ⟨h, -⟩; simp at h

/-- Witness for C1 at a concrete record: receiver ending in '5', delay 10,
elapsed 10. -/
theorem c1_partition_witness :
    (resolveRecord 10 10
      (mkPaymentRecord ⟨['a'], ['5'], 1, none⟩ 0 0)).status =
      PaymentStatus.returned :=
  (c1_partition 10 10 (mkPaymentRecord ⟨['a'], ['5'], 1, none⟩ 0 0) '5'
    (by decide) (by decide) (by decide)).2.1 (by decide)

/-- C2: for every receiver account and every elapsed time strictly below the
delay threshold, a pending record is not resolved: its status stays pending
(the record is untouched), regardless of the receiver identifier. -/
theorem c2_time_gating (delay now : Int) (r : GwRecord)
    (hpend : r.status = PaymentStatus.pending)
    (ht : now - r.created_at < delay) :
    resolveRecord delay now r = r ∧
      (resolveRecord delay now r).status = PaymentStatus.pending := by
  have hcond : ¬ (r.status = PaymentStatus.pending ∧
      should_resolve r.created_at now delay = true) := by
    rintro ⟨-, hres⟩
    simp only [should_resolve, decide_eq_true_eq] at hres
    omega
  rw [resolveRecord, if_neg hcond]
  exact ⟨rfl, hpend⟩

/-- Witness for C2: a fresh pending record with elapsed 3 < delay 10. -/
theorem c2_time_gating_witness :
    (resolveRecord 10 3 (mkPaymentRecord ⟨['a'], ['9'], 1, none⟩ 0 0)).status =
      PaymentStatus.pending :=
  (c2_time_gating 10 3 (mkPaymentRecord ⟨['a'], ['9'], 1, none⟩ 0 0)
    (by decide) (by decide)).2

/-- C9: `get_final_status` indexes the last character of the receiver
account, so it is total exactly on non-empty strings: on the empty string it
raises (modelled `none`), and for every non-empty string the error branch is
unreachable and a status is returned. -/
theorem c9_totality :
    get_final_status [] = none ∧
    ∀ r : List Char, r ≠ [] → ∃ st, get_final_status r = some st := by
  constructor
  · rfl
  · intro r hr
    have h : r.getLast?.isSome := List.getLast?_isSome.mpr hr
    rcases Option.isSome_iff_exists.mp h with ⟨c, hc⟩
    exact ⟨_, by rw [get_final_status, hc]⟩

/-- Witness for C9 at the one-character non-digit string "a". -/
theorem c9_totality_witness : ∃ st, get_final_status ['a'] = some st :=
  c9_totality.2 ['a'] (by decide)

/-- Local-side `Payment` row (`src/models.py`). Internal ids are modelled as
naturals (the code uses UUID strings). -/
structure Payment where
  id : Nat
  confirmation_id : Option Nat
  sender_account : List Char
  receiver_account : List Char
  amount : Int
  memo : Option (List Char)
  status : PaymentStatus
  created_at : Int
  updated_at : Int
deriving DecidableEq

/-- The gateway `POST /submit` response body (`PaymentResponse` in
`remote_gateway/models.py`). -/
structure GatewaySubmitResponse where
  confirmation_id : Nat
  status : PaymentStatus
  created_at : Int
deriving DecidableEq

/-- One element of the gateway `GET /status` response (`StatusResponse` in
`remote_gateway/models.py`). -/
structure StatusEntry where
  confirmation_id : Nat
  status : PaymentStatus
  created_at : Int
  updated_at : Int
deriving DecidableEq

/-- The `StatusResponse` projection applied to each record by
`get_all_payment_statuses` in `remote_gateway/main.py`. -/
def toStatusEntry (g : GwRecord) : StatusEntry where
  confirmation_id := g.confirmation_id
  status := g.status
  created_at := g.created_at
  updated_at := g.updated_at

/-- `create_payment` (`src/routes/payments.py`): persist a pending record
with no confirmation id, then attempt the gateway submit call whose outcome
is `gwResult`; on success overwrite `confirmation_id` and `status` from the
response and re-persist (the SQLAlchemy `onupdate` keeps `updated_at = now`);
on `httpx.HTTPError` leave the record as created. Returns the updated store
and the record returned to the caller. -/
def create_payment (sub : Submission) (payment_id : Nat) (now : Int)
    (gwResult : TransportResult GatewaySubmitResponse)
    (db : List Payment) : List Payment × Payment :=
  let db_payment : Payment :=
    { id := payment_id
      confirmation_id := none
      sender_account := sub.sender_account
      receiver_account := sub.receiver_account
      amount := sub.amount
      memo := sub.memo
      status := PaymentStatus.pending
      created_at := now
      updated_at := now }
  match gwResult with
  | TransportResult.transportError => (db ++ [db_payment], db_payment)
  | TransportResult.ok resp =>
    let updated := { db_payment with
      confirmation_id := some resp.confirmation_id
      status := resp.status }
    (db ++ [updated], updated)

/-- Outcome of `get_payment`: the 404 branch or the returned record. -/
inductive LookupResult
  | notFound
  | found (p : Payment)
deriving DecidableEq

/-- Full outcome of one `get_payment` request: the store after the request,
the HTTP-level result, and whether the gateway `GET /status` call was
issued. -/
structure LookupOut where
  db : List Payment
  result : LookupResult
  remoteCalled : Bool
deriving DecidableEq

/-- `get_payment` (`src/routes/payments.py`): load the record by id (404 if
absent); if it has a confirmation id, poll the gateway (`gwResult` is the
outcome of that call, consulted only in this branch), scan the returned list
for the first entry with a matching confirmation id, and if its status
differs from the local one, write the new status with `updated_at = now`;
any `httpx.HTTPError` from the poll is swallowed and the current record
returned. -/
def get_payment (payment_id : Nat) (now : Int)
    (gwResult : TransportResult (List StatusEntry))
    (db : List Payment) : LookupOut :=
  match db.find? (fun p => p.id == payment_id) with
  | none => ⟨db, LookupResult.notFound, false⟩
  | some p =>
    match p.confirmation_id with
    | none => ⟨db, LookupResult.found p, false⟩
    | some cid =>
      match gwResult with
      | TransportResult.transportError => ⟨db, LookupResult.found p, true⟩
      | TransportResult.ok entries =>
        match entries.find? (fun e => e.confirmation_id == cid) with
        | none => ⟨db, LookupResult.found p, true⟩
        | some e =>
          if e.status ≠ p.status then
            let p' := { p with status := e.status, updated_at := now }
            ⟨db.map (fun q => if q.id == payment_id then p' else q),
              LookupResult.found p', true⟩
          else ⟨db, LookupResult.found p, true⟩

/-- Searching a store by id commutes with mapping an id-preserving update
over it. -/
theorem find?_map_of_id_eq (f : Payment → Payment)
    (hf : ∀ q, (f q).id = q.id) (i : Nat) (db : List Payment) :
    (db.map f).find? (fun q => q.id == i) =
      (db.find? (fun q => q.id == i)).map f := by
  have hp : ((fun q : Payment => q.id == i) ∘ f) = fun q : Payment => q.id == i := by
    funext q
    simp [Function.comp, hf q]
  rw [List.find?_map, hp]

/-- C3: if the gateway submit call fails with a transport error,
`create_payment` still succeeds: it returns a record with status pending and
no confirmation id, and the store holds exactly that record, as first
created (with `updated_at = created_at = now`). -/
theorem c3_forward_failure (sub : Submission) (payment_id : Nat) (now : Int)
    (db : List Payment) :
    (create_payment sub payment_id now TransportResult.transportError db).2.status
        = PaymentStatus.pending ∧
    (create_payment sub payment_id now TransportResult.transportError db).2.confirmation_id
        = none ∧
    (create_payment sub payment_id now TransportResult.transportError db).2.updated_at
        = (create_payment sub payment_id now TransportResult.transportError db).2.created_at ∧
    (create_payment sub payment_id now TransportResult.transportError db).1
        = db ++ [(create_payment sub payment_id now TransportResult.transportError db).2] :=
  ⟨rfl, rfl, rfl, rfl⟩

/-- C6: for a known id whose record has a confirmation id, a transport error
on the gateway poll is swallowed: `get_payment` returns the current local
record, the store is unchanged, and the result is not a failure. -/
theorem c6_transport_error (payment_id : Nat) (now : Int) (db : List Payment)
    (p : Payment) (cid : Nat)
    (hfind : db.find? (fun q => q.id == payment_id) = some p)
    (hcid : p.confirmation_id = some cid) :
    get_payment payment_id now TransportResult.transportError db =
      ⟨db, LookupResult.found p, true⟩ := by
  simp [get_payment, hfind, hcid]

/-- Witness for C6: a one-record store whose record carries confirmation
id 7. -/
theorem c6_transport_error_witness :
    get_payment 1 5 TransportResult.transportError
        [⟨1, some 7, ['a'], ['b'], 2, none, PaymentStatus.pending, 0, 0⟩] =
      ⟨[⟨1, some 7, ['a'], ['b'], 2, none, PaymentStatus.pending, 0, 0⟩],
        LookupResult.found
          ⟨1, some 7, ['a'], ['b'], 2, none, PaymentStatus.pending, 0, 0⟩,
        true⟩ :=
  c6_transport_error 1 5
    [⟨1, some 7, ['a'], ['b'], 2, none, PaymentStatus.pending, 0, 0⟩]
    ⟨1, some 7, ['a'], ['b'], 2, none, PaymentStatus.pending, 0, 0⟩ 7
    (by decide) (by decide)

/-- C7: for an id not in the store, `get_payment` fails with not-found, the
store is unchanged, and no remote call is made. -/
theorem c7_not_found (payment_id : Nat) (now : Int)
    (gwResult : TransportResult (List StatusEntry)) (db : List Payment)
    (hfind : db.find? (fun q => q.id == payment_id) = none) :
    get_payment payment_id now gwResult db =
      ⟨db, LookupResult.notFound, false⟩ := by
  simp [get_payment, hfind]

/-- Witness for C7: looking up id 2 in a store holding only id 1. -/
theorem c7_not_found_witness :
    get_payment 2 5 (TransportResult.ok [])
        [⟨1, none, ['a'], ['b'], 2, none, PaymentStatus.pending, 0, 0⟩] =
      ⟨[⟨1, none, ['a'], ['b'], 2, none, PaymentStatus.pending, 0, 0⟩],
        LookupResult.notFound, false⟩ :=
  c7_not_found 2 5 (TransportResult.ok [])
    [⟨1, none, ['a'], ['b'], 2, none, PaymentStatus.pending, 0, 0⟩]
    (by decide)

/-- C8: for a known id whose record has no confirmation id, `get_payment`
returns the stored record unchanged, leaves the store unchanged, and makes
no remote call. -/
theorem c8_no_confirmation (payment_id : Nat) (now : Int)
    (gwResult : TransportResult (List StatusEntry)) (db : List Payment)
    (p : Payment)
    (hfind : db.find? (fun q => q.id == payment_id) = some p)
    (hcid : p.confirmation_id = none) :
    get_payment payment_id now gwResult db =
      ⟨db, LookupResult.found p, false⟩ := by
  simp [get_payment, hfind, hcid]

/-- Witness for C8: a one-record store whose record is unlinked. -/
theorem c8_no_confirmation_witness :
    get_payment 1 5 (TransportResult.ok [⟨7, PaymentStatus.settled, 0, 0⟩])
        [⟨1, none, ['a'], ['b'], 2, none, PaymentStatus.pending, 0, 0⟩] =
      ⟨[⟨1, none, ['a'], ['b'], 2, none, PaymentStatus.pending, 0, 0⟩],
        LookupResult.found
          ⟨1, none, ['a'], ['b'], 2, none, PaymentStatus.pending, 0, 0⟩,
        false⟩ :=
  c8_no_confirmation 1 5 (TransportResult.ok [⟨7, PaymentStatus.settled, 0, 0⟩])
    [⟨1, none, ['a'], ['b'], 2, none, PaymentStatus.pending, 0, 0⟩]
    ⟨1, none, ['a'], ['b'], 2, none, PaymentStatus.pending, 0, 0⟩
    (by decide) (by decide)

/-- C4: for a known id, running `get_payment` twice with the same
gateway-side view (no intervening remote change) leaves everything from the
first call intact: the second call returns the very same store (hence the
same `updated_at`), result and remote-call behaviour. -/
theorem c4_idempotent_lookup (payment_id : Nat) (now1 now2 : Int)
    (gwResult : TransportResult (List StatusEntry)) (db : List Payment)
    (hknown : (db.find? (fun q => q.id == payment_id)).isSome) :
    get_payment payment_id now2 gwResult
        (get_payment payment_id now1 gwResult db).db =
      get_payment payment_id now1 gwResult db := by
  cases hfind : db.find? (fun q => q.id == payment_id) with
  | none => rw [hfind] at hknown; simp at hknown
  | some p =>
    have hpid : (p.id == payment_id) = true := by
      have h := List.find?_some hfind
      simpa using h
    cases hcid : p.confirmation_id with
    | none => simp [get_payment, hfind, hcid]
    | some cid =>
      cases gwResult with
      | transportError => simp [get_payment, hfind, hcid]
      | ok entries =>
        cases hent : entries.find? (fun e => e.confirmation_id == cid) with
        | none => simp [get_payment, hfind, hcid, hent]
        | some e =>
          by_cases hst : e.status = p.status
          · simp [get_payment, hfind, hcid, hent, hst]
          · have hpid' : p.id = payment_id := by simpa using hpid
            have hidpres : ∀ q : Payment,
                ((fun q : Payment => if q.id == payment_id then
                    { p with status := e.status, updated_at := now1 }
                  else q) q).id = q.id := by
              intro q
              by_cases hq : (q.id == payment_id) = true
              · have hq' : q.id = payment_id := by simpa using hq
                simp [hq, hpid', hq']
              · simp [hq]
            have hmap :
                (db.map (fun q => if q.id == payment_id then
                    { p with status := e.status, updated_at := now1 }
                  else q)).find? (fun q => q.id == payment_id) =
                  some { p with status := e.status, updated_at := now1 } := by
              rw [find?_map_of_id_eq _ hidpres payment_id, hfind]
              simp [hpid']
            have hout1 : get_payment payment_id now1
                (TransportResult.ok entries) db =
                ⟨db.map (fun q => if q.id == payment_id then
                    { p with status := e.status, updated_at := now1 }
                  else q),
                  LookupResult.found
                    { p with status := e.status, updated_at := now1 },
                  true⟩ := by
              simp [get_payment, hfind, hcid, hent, hst]
            rw [hout1]
            simp only [get_payment]
            rw [hmap]
            simp [hcid, hent]

/-- Witness for C4: one linked pending record, gateway reports settled; the
first lookup settles it and the second changes nothing. -/
theorem c4_idempotent_lookup_witness :
    get_payment 1 6 (TransportResult.ok [⟨7, PaymentStatus.settled, 0, 5⟩])
        (get_payment 1 5 (TransportResult.ok [⟨7, PaymentStatus.settled, 0, 5⟩])
          [⟨1, some 7, ['a'], ['b'], 2, none, PaymentStatus.pending, 0, 0⟩]).db =
      get_payment 1 5 (TransportResult.ok [⟨7, PaymentStatus.settled, 0, 5⟩])
        [⟨1, some 7, ['a'], ['b'], 2, none, PaymentStatus.pending, 0, 0⟩] :=
  c4_idempotent_lookup 1 5 6
    (TransportResult.ok [⟨7, PaymentStatus.settled, 0, 5⟩])
    [⟨1, some 7, ['a'], ['b'], 2, none, PaymentStatus.pending, 0, 0⟩]
    (by decide)

/-- In a store with pairwise-distinct ids (the primary-key constraint of the
`payments` table), two members with the same id are the same record. -/
theorem eq_of_mem_of_id_eq {db : List Payment}
    (hids : db.Pairwise fun a b => a.id ≠ b.id)
    {a b : Payment} (ha : a ∈ db) (hb : b ∈ db) (hid : a.id = b.id) :
    a = b := by
  induction db with
  | nil => cases ha
  | cons x t ih =>
    have hx := (List.pairwise_cons.mp hids).1
    have ht := (List.pairwise_cons.mp hids).2
    rcases List.mem_cons.mp ha with ha' | ha' <;>
      rcases List.mem_cons.mp hb with hb' | hb'
    · rw [ha', hb']
    · exact absurd (ha' ▸ hid) (hx b hb')
    · exact absurd (hb' ▸ hid.symm) (hx a ha')
    · exact ih ht ha' hb'

/-- The status-and-timestamp update written by `get_payment` in its merge
branch preserves every record's id. -/
theorem upd_preserves_id {db : List Payment} {payment_id : Nat} {p : Payment}
    (hfind : db.find? (fun q => q.id == payment_id) = some p)
    (st : PaymentStatus) (t : Int) :
    ∀ q : Payment, ((fun q : Payment => if q.id == payment_id then
        { p with status := st, updated_at := t } else q) q).id = q.id := by
  have hpid : p.id = payment_id := by
    have h := List.find?_some hfind
    simpa using h
  intro q
  by_cases hq : (q.id == payment_id) = true
  · have hq' : q.id = payment_id := by simpa using hq
    simp [hq, hpid, hq']
  · simp [hq]

/-- The store after a `get_payment` call is either untouched, or the call
reached the merge branch: the record was found, linked, the gateway call
succeeded, a matching entry with a different status was found, and the store
is the pointwise update of the looked-up record's status and `updated_at`. -/
theorem get_payment_db_cases (payment_id : Nat) (now : Int)
    (gwResult : TransportResult (List StatusEntry)) (db : List Payment) :
    (get_payment payment_id now gwResult db).db = db ∨
    ∃ (p : Payment) (cid : Nat) (entries : List StatusEntry) (e : StatusEntry),
      db.find? (fun q => q.id == payment_id) = some p ∧
      p.confirmation_id = some cid ∧
      gwResult = TransportResult.ok entries ∧
      entries.find? (fun x => x.confirmation_id == cid) = some e ∧
      e.status ≠ p.status ∧
      (get_payment payment_id now gwResult db).remoteCalled = true ∧
      (get_payment payment_id now gwResult db).db =
        db.map (fun q => if q.id == payment_id then
          { p with status := e.status, updated_at := now } else q) := by
  cases hfind : db.find? (fun q => q.id == payment_id) with
  | none => left; simp [get_payment, hfind]
  | some p =>
    cases hcid : p.confirmation_id with
    | none => left; simp [get_payment, hfind, hcid]
    | some cid =>
      cases gwResult with
      | transportError => left; simp [get_payment, hfind, hcid]
      | ok entries =>
        cases hent : entries.find? (fun e => e.confirmation_id == cid) with
        | none => left; simp [get_payment, hfind, hcid, hent]
        | some e =>
          by_cases hst : e.status = p.status
          · left; simp [get_payment, hfind, hcid, hent, hst]
          · right
            refine ⟨p, cid, entries, e, rfl, hcid, rfl, hent, hst, ?_, ?_⟩ <;>
              simp [get_payment, hfind, hcid, hent, hst]

/-- C10: in a store with distinct ids, a `get_payment` call modifies at most
the `status` and `updated_at` of the looked-up record: the store keeps its
length, every record keeps its `id`, `confirmation_id`, accounts, `amount`,
`memo` and `created_at`, and every record whose id is not the looked-up one
is completely unchanged. -/
theorem c10_lookup_frame (payment_id : Nat) (now : Int)
    (gwResult : TransportResult (List StatusEntry)) (db : List Payment)
    (hids : db.Pairwise fun a b => a.id ≠ b.id) :
    ((get_payment payment_id now gwResult db).db).length = db.length ∧
    ∀ (k : Nat) (q q' : Payment), db[k]? = some q →
      ((get_payment payment_id now gwResult db).db)[k]? = some q' →
      q'.id = q.id ∧ q'.confirmation_id = q.confirmation_id ∧
      q'.sender_account = q.sender_account ∧
      q'.receiver_account = q.receiver_account ∧
      q'.amount = q.amount ∧ q'.memo = q.memo ∧
      q'.created_at = q.created_at ∧
      (q.id ≠ payment_id → q' = q) := by
  rcases get_payment_db_cases payment_id now gwResult db with
    hdb | ⟨p, cid, entries, e, hfind, hcid, hgw, hent, hst, hrc, hdb⟩
  · rw [hdb]
    refine ⟨rfl, ?_⟩
    intro k q q' hq hq'
    rw [hq] at hq'
    cases hq'
    exact ⟨rfl, rfl, rfl, rfl, rfl, rfl, rfl, fun _ => rfl⟩
  · rw [hdb]
    refine ⟨by simp, ?_⟩
    intro k q q' hq hq'
    rw [List.getElem?_map, hq, Option.map_some'] at hq'
    have hq'' : q' = if (q.id == payment_id) = true then
        { p with status := e.status, updated_at := now } else q :=
      (Option.some.inj hq').symm
    by_cases hmatch : (q.id == payment_id) = true
    · have hqid : q.id = payment_id := by simpa using hmatch
      have hpid : p.id = payment_id := by
        have h := List.find?_some hfind
        simpa using h
      have hpq : p = q :=
        eq_of_mem_of_id_eq hids (List.mem_of_find?_eq_some hfind)
          (List.getElem?_mem hq) (by rw [hpid, hqid])
      subst hpq
      rw [hq'', if_pos hmatch]
      exact ⟨rfl, rfl, rfl, rfl, rfl, rfl, rfl,
        fun hne => absurd hqid hne⟩
    · rw [hq'', if_neg hmatch]
      exact ⟨rfl, rfl, rfl, rfl, rfl, rfl, rfl, fun _ => rfl⟩

/-- Witness for C10: a two-record store; looking up id 1 settles it while
record 2 keeps every field. -/
theorem c10_lookup_frame_witness :
    ((get_payment 1 5 (TransportResult.ok [⟨7, PaymentStatus.settled, 0, 5⟩])
        [⟨1, some 7, ['a'], ['b'], 2, none, PaymentStatus.pending, 0, 0⟩,
         ⟨2, some 8, ['c'], ['d'], 3, none, PaymentStatus.pending, 0, 0⟩]).db).length
      = 2 ∧
    ∀ q' : Payment,
      ((get_payment 1 5 (TransportResult.ok [⟨7, PaymentStatus.settled, 0, 5⟩])
        [⟨1, some 7, ['a'], ['b'], 2, none, PaymentStatus.pending, 0, 0⟩,
         ⟨2, some 8, ['c'], ['d'], 3, none, PaymentStatus.pending, 0, 0⟩]).db)[1]?
        = some q' →
      q' = ⟨2, some 8, ['c'], ['d'], 3, none, PaymentStatus.pending, 0, 0⟩ := by
  have h := c10_lookup_frame 1 5
    (TransportResult.ok [⟨7, PaymentStatus.settled, 0, 5⟩])
    [⟨1, some 7, ['a'], ['b'], 2, none, PaymentStatus.pending, 0, 0⟩,
     ⟨2, some 8, ['c'], ['d'], 3, none, PaymentStatus.pending, 0, 0⟩]
    (by decide)
  refine ⟨h.1, ?_⟩
  intro q' hq'
  exact (h.2 1 ⟨2, some 8, ['c'], ['d'], 3, none, PaymentStatus.pending, 0, 0⟩
    q' (by decide) hq').2.2.2.2.2.2.2 (by decide)

/-- Combined state of the two processes: the gateway's in-memory store with
its id source, and the local `payments` table with its id source. -/
structure SysState where
  gw : List GwRecord
  gwNext : Nat
  localStore : List Payment
  localNext : Nat
deriving DecidableEq

/-- The externally triggerable operations: a direct gateway submit
(`POST /submit`), a direct gateway poll (`GET /status`), a local submission
(`POST /payments`, whose forwarding either reaches the gateway or fails in
transport), and a local lookup (`GET /payments/{id}`, whose poll either
reaches the gateway — thereby resolving due records — or fails in
transport). Each carries the wall-clock time at which it runs. -/
inductive Op
  | gwAccept (sub : Submission) (now : Int)
  | gwList (now : Int)
  | engineSubmit (sub : Submission) (now : Int) (fail : Bool)
  | engineLookup (i : Nat) (now : Int) (fail : Bool)

/-- Both stores start empty. -/
def initState : SysState := ⟨[], 0, [], 0⟩

/-- One operation of the combined system. A gateway-side submit validates
the submission (422 otherwise, leaving both stores untouched); a local
submit that fails in transport or is rejected by the gateway keeps only the
freshly created pending local record; a local lookup that reaches the
gateway first resolves due gateway records (the side effect of
`GET /status`) and then merges, but contacts the gateway only when the
looked-up record exists and is linked. -/
def stepOp (delay : Int) (s : SysState) : Op → SysState
  | Op.gwAccept sub now =>
    if gwValid sub then
      { s with gw := s.gw ++ [mkPaymentRecord sub s.gwNext now],
               gwNext := s.gwNext + 1 }
    else s
  | Op.gwList now => { s with gw := get_all_statuses delay now s.gw }
  | Op.engineSubmit sub now fail =>
    if fail || !gwValid sub then
      { s with
        localStore := (create_payment sub s.localNext now
          TransportResult.transportError s.localStore).1,
        localNext := s.localNext + 1 }
    else
      { s with
        gw := s.gw ++ [mkPaymentRecord sub s.gwNext now],
        gwNext := s.gwNext + 1,
        localStore := (create_payment sub s.localNext now
          (TransportResult.ok
            ⟨(mkPaymentRecord sub s.gwNext now).confirmation_id,
             (mkPaymentRecord sub s.gwNext now).status,
             (mkPaymentRecord sub s.gwNext now).created_at⟩)
          s.localStore).1,
        localNext := s.localNext + 1 }
  | Op.engineLookup i now fail =>
    if fail then s
    else
      { s with
        gw := if (get_payment i now
            (TransportResult.ok
              ((get_all_statuses delay now s.gw).map toStatusEntry))
            s.localStore).remoteCalled then
          get_all_statuses delay now s.gw
        else s.gw,
        localStore := (get_payment i now
          (TransportResult.ok
            ((get_all_statuses delay now s.gw).map toStatusEntry))
          s.localStore).db }

/-- Run a sequence of operations from the initial (empty) state. -/
def run (delay : Int) (ops : List Op) : SysState :=
  ops.foldl (stepOp delay) initState

/-- The status of the gateway record with confirmation id `c`, if any
(first match, as the linear scan in `get_payment` sees it). -/
def gwStatusOf (s : SysState) (c : Nat) : Option PaymentStatus :=
  (s.gw.find? (fun g => g.confirmation_id == c)).map (fun g => g.status)

/-- The status of the local record with internal id `i`, if any. -/
def localStatusOf (s : SysState) (i : Nat) : Option PaymentStatus :=
  (s.localStore.find? (fun p => p.id == i)).map (fun p => p.status)

/-- Reconciliation link invariant: a local record that has left pending got
its status from the gateway record it is linked to, and the gateway side
still carries that status. -/
def LinkInv (s : SysState) : Prop :=
  ∀ p ∈ s.localStore, ∀ cid, p.confirmation_id = some cid →
    p.status ≠ PaymentStatus.pending → gwStatusOf s cid = some p.status

/-- Lazy resolution never changes a record's confirmation id. -/
theorem resolveRecord_cid (delay now : Int) (r : GwRecord) :
    (resolveRecord delay now r).confirmation_id = r.confirmation_id := by
  rw [resolveRecord]
  split
  · cases hg : get_final_status r.receiver_account <;> rfl
  · rfl

/-- Lazy resolution is the identity on records that are no longer
pending: terminal statuses are absorbing on the gateway side. -/
theorem resolveRecord_of_ne_pending (delay now : Int) (r : GwRecord)
    (h : r.status ≠ PaymentStatus.pending) :
    resolveRecord delay now r = r := by
  rw [resolveRecord, if_neg]
  rintro ⟨h1, -⟩
  exact h h1

/-- Searching the gateway store by confirmation id commutes with a
pointwise cid-preserving transformation. -/
theorem gw_find?_map_of_cid_eq (f : GwRecord → GwRecord)
    (hf : ∀ g, (f g).confirmation_id = g.confirmation_id) (c : Nat)
    (l : List GwRecord) :
    (l.map f).find? (fun g => g.confirmation_id == c) =
      (l.find? (fun g => g.confirmation_id == c)).map f := by
  have hp : ((fun g : GwRecord => g.confirmation_id == c) ∘ f) =
      fun g : GwRecord => g.confirmation_id == c := by
    funext g
    simp [Function.comp, hf g]
  rw [List.find?_map, hp]

/-- Searching the `GET /status` response by confirmation id is searching
the (resolved) gateway store. -/
theorem entry_find?_map (c : Nat) (l : List GwRecord) :
    (l.map toStatusEntry).find? (fun e => e.confirmation_id == c) =
      (l.find? (fun g => g.confirmation_id == c)).map toStatusEntry := by
  have hp : ((fun e : StatusEntry => e.confirmation_id == c) ∘ toStatusEntry) =
      fun g : GwRecord => g.confirmation_id == c := rfl
  rw [List.find?_map, hp]

/-- A terminal record found by confirmation id is still found unchanged
after the lazy-resolution pass of `get_all_statuses`. -/
theorem resolved_find?_of_terminal (delay now : Int) (gw : List GwRecord)
    (c : Nat) {g : GwRecord}
    (hg : gw.find? (fun x => x.confirmation_id == c) = some g)
    (hgp : g.status ≠ PaymentStatus.pending) :
    (get_all_statuses delay now gw).find? (fun x => x.confirmation_id == c) =
      some g := by
  rw [get_all_statuses,
    gw_find?_map_of_cid_eq _ (resolveRecord_cid delay now) c gw, hg,
    Option.map_some', resolveRecord_of_ne_pending _ _ _ hgp]

/-- No step of the combined system changes a gateway record that has
reached a terminal status: terminal statuses are absorbing on the gateway
side. -/
theorem gw_step_absorbing (delay : Int) (s : SysState) (op : Op) (c : Nat)
    (st : PaymentStatus) (hst : st ≠ PaymentStatus.pending)
    (h : gwStatusOf s c = some st) :
    gwStatusOf (stepOp delay s op) c = some st := by
  rcases Option.map_eq_some'.mp h with ⟨g, hg, hgst⟩
  have hgp : g.status ≠ PaymentStatus.pending := by rw [hgst]; exact hst
  have happend : ∀ l : List GwRecord,
      ((s.gw ++ l).find? (fun x => x.confirmation_id == c)).map
        (fun x => x.status) = some st := by
    intro l
    rw [List.find?_append, hg, Option.or_some, Option.map_some', hgst]
  cases op with
  | gwAccept sub now =>
    simp only [stepOp]
    split
    · exact happend _
    · exact h
  | gwList now =>
    simp only [stepOp, gwStatusOf]
    rw [resolved_find?_of_terminal delay now s.gw c hg hgp,
      Option.map_some', hgst]
  | engineSubmit sub now fail =>
    simp only [stepOp]
    split
    · exact h
    · exact happend _
  | engineLookup i now fail =>
    simp only [stepOp]
    split
    · exact h
    · simp only [gwStatusOf]
      split
      · rw [resolved_find?_of_terminal delay now s.gw c hg hgp,
          Option.map_some', hgst]
      · exact h

/-- No step of the combined system turns an absent gateway confirmation id
into anything but a fresh pending record: pending is the initial gateway
status. -/
theorem gw_step_fresh (delay : Int) (s : SysState) (op : Op) (c : Nat)
    (h : gwStatusOf s c = none) :
    gwStatusOf (stepOp delay s op) c = none ∨
      gwStatusOf (stepOp delay s op) c = some PaymentStatus.pending := by
  have hg : s.gw.find? (fun x => x.confirmation_id == c) = none :=
    Option.map_eq_none'.mp h
  have happend : ∀ (sub : Submission) (cid : Nat) (now : Int),
      ((s.gw ++ [mkPaymentRecord sub cid now]).find?
          (fun x => x.confirmation_id == c)).map (fun x => x.status) = none ∨
      ((s.gw ++ [mkPaymentRecord sub cid now]).find?
          (fun x => x.confirmation_id == c)).map (fun x => x.status) =
        some PaymentStatus.pending := by
    intro sub cid now
    rw [List.find?_append, hg, Option.none_or, List.find?_singleton]
    by_cases hc : ((mkPaymentRecord sub cid now).confirmation_id == c) = true
    · right; rw [if_pos hc]; rfl
    · left; rw [if_neg hc]; rfl
  have hres : ∀ now : Int,
      ((get_all_statuses delay now s.gw).find?
          (fun x => x.confirmation_id == c)).map (fun x => x.status) = none := by
    intro now
    rw [get_all_statuses,
      gw_find?_map_of_cid_eq _ (resolveRecord_cid delay now) c s.gw, hg]
    rfl
  cases op with
  | gwAccept sub now =>
    simp only [stepOp]
    split
    · exact happend sub s.gwNext now
    · exact Or.inl h
  | gwList now =>
    simp only [stepOp, gwStatusOf]
    exact Or.inl (hres now)
  | engineSubmit sub now fail =>
    simp only [stepOp]
    split
    · exact Or.inl h
    · exact happend sub s.gwNext now
  | engineLookup i now fail =>
    simp only [stepOp]
    split
    · exact Or.inl h
    · simp only [gwStatusOf]
      split
      · exact Or.inl (hres now)
      · exact Or.inl h

/-- Unfolding of `create_payment` on the transport-error branch. -/
theorem create_payment_err (sub : Submission) (pid : Nat) (now : Int)
    (db : List Payment) :
    create_payment sub pid now TransportResult.transportError db =
      (db ++ [⟨pid, none, sub.sender_account, sub.receiver_account,
        sub.amount, sub.memo, PaymentStatus.pending, now, now⟩],
       ⟨pid, none, sub.sender_account, sub.receiver_account,
        sub.amount, sub.memo, PaymentStatus.pending, now, now⟩) := rfl

/-- Unfolding of `create_payment` on the successful-forwarding branch. -/
theorem create_payment_ok (sub : Submission) (pid : Nat) (now : Int)
    (resp : GatewaySubmitResponse) (db : List Payment) :
    create_payment sub pid now (TransportResult.ok resp) db =
      (db ++ [⟨pid, some resp.confirmation_id, sub.sender_account,
        sub.receiver_account, sub.amount, sub.memo, resp.status, now, now⟩],
       ⟨pid, some resp.confirmation_id, sub.sender_account,
        sub.receiver_account, sub.amount, sub.memo, resp.status, now, now⟩) := rfl

/-- No step of the combined system turns an absent local id into anything
but a fresh pending record: pending is the initial local status. -/
theorem local_step_fresh (delay : Int) (s : SysState) (op : Op) (i : Nat)
    (h : localStatusOf s i = none) :
    localStatusOf (stepOp delay s op) i = none ∨
      localStatusOf (stepOp delay s op) i = some PaymentStatus.pending := by
  have hf : s.localStore.find? (fun p => p.id == i) = none :=
    Option.map_eq_none'.mp h
  have happend : ∀ r : Payment, r.status = PaymentStatus.pending →
      ((s.localStore ++ [r]).find? (fun p => p.id == i)).map
          (fun p => p.status) = none ∨
      ((s.localStore ++ [r]).find? (fun p => p.id == i)).map
          (fun p => p.status) = some PaymentStatus.pending := by
    intro r hr
    rw [List.find?_append, hf, Option.none_or, List.find?_singleton]
    by_cases hc : (r.id == i) = true
    · right; rw [if_pos hc, Option.map_some', hr]
    · left; rw [if_neg hc]; rfl
  cases op with
  | gwAccept sub now =>
    simp only [stepOp]
    split
    · exact Or.inl h
    · exact Or.inl h
  | gwList now => exact Or.inl h
  | engineSubmit sub now fail =>
    simp only [stepOp]
    split
    · simp only [localStatusOf, create_payment_err]
      exact happend _ rfl
    · simp only [localStatusOf, create_payment_ok]
      exact happend _ rfl
  | engineLookup j now fail =>
    simp only [stepOp]
    split
    · exact Or.inl h
    · left
      simp only [localStatusOf]
      rcases get_payment_db_cases j now
          (TransportResult.ok
            ((get_all_statuses delay now s.gw).map toStatusEntry))
          s.localStore with
        hdb | ⟨p, cid, entries, e, hfind, hcid, hgwr, hent, hstne, hrc, hdb⟩
      · rw [hdb, hf]; rfl
      · rw [hdb,
          find?_map_of_id_eq _ (upd_preserves_id hfind e.status now) i, hf]
        rfl

/-- No step of the combined system changes a local record that has reached
a terminal status, provided the reconciliation link invariant holds:
terminal statuses are absorbing on the local side. -/
theorem local_step_absorbing (delay : Int) (s : SysState) (op : Op) (i : Nat)
    (st : PaymentStatus) (hInv : LinkInv s)
    (hst : st ≠ PaymentStatus.pending)
    (h : localStatusOf s i = some st) :
    localStatusOf (stepOp delay s op) i = some st := by
  rcases Option.map_eq_some'.mp h with ⟨q, hq, hqst⟩
  have happend : ∀ r : Payment,
      ((s.localStore ++ [r]).find? (fun p => p.id == i)).map
        (fun p => p.status) = some st := by
    intro r
    rw [List.find?_append, hq, Option.or_some, Option.map_some', hqst]
  cases op with
  | gwAccept sub now =>
    simp only [stepOp]
    split
    · exact h
    · exact h
  | gwList now => exact h
  | engineSubmit sub now fail =>
    simp only [stepOp]
    split
    · simp only [localStatusOf, create_payment_err]
      exact happend _
    · simp only [localStatusOf, create_payment_ok]
      exact happend _
  | engineLookup j now fail =>
    simp only [stepOp]
    split
    · exact h
    · simp only [localStatusOf]
      rcases get_payment_db_cases j now
          (TransportResult.ok
            ((get_all_statuses delay now s.gw).map toStatusEntry))
          s.localStore with
        hdb | ⟨p, cid, entries, e, hfind, hcid, hgwr, hent, hstne, hrc, hdb⟩
      · rw [hdb, hq, Option.map_some', hqst]
      · rw [hdb,
          find?_map_of_id_eq _ (upd_preserves_id hfind e.status now) i, hq,
          Option.map_some']
        by_cases hqj : (q.id == j) = true
        · exfalso
          have hqi : q.id = i := by simpa using List.find?_some hq
          have hqj' : q.id = j := by simpa using hqj
          have hij : i = j := hqi.symm.trans hqj'
          subst hij
          rw [hq] at hfind
          have hpq : p = q := (Option.some.inj hfind).symm
          subst hpq
          have hterm : p.status ≠ PaymentStatus.pending := by
            rw [hqst]; exact hst
          have hgw := hInv p (List.mem_of_find?_eq_some hq) cid hcid hterm
          rcases Option.map_eq_some'.mp hgw with ⟨g, hg, hgst⟩
          have hgp : g.status ≠ PaymentStatus.pending := by
            rw [hgst]; exact hterm
          have hE : (get_all_statuses delay now s.gw).map toStatusEntry =
              entries := by
            injection hgwr
          rw [← hE, entry_find?_map,
            resolved_find?_of_terminal delay now s.gw cid hg hgp,
            Option.map_some'] at hent
          have he : toStatusEntry g = e := Option.some.inj hent
          apply hstne
          rw [← he]
          exact hgst
        · simp [hqj, hqst]

/-- Every step of the combined system preserves the reconciliation link
invariant. -/
theorem linkInv_step (delay : Int) (s : SysState) (op : Op)
    (hInv : LinkInv s) : LinkInv (stepOp delay s op) := by
  cases op with
  | gwAccept sub now =>
    simp only [stepOp]
    split
    · intro p hp cid hcid hterm
      have hgw := hInv p hp cid hcid hterm
      rcases Option.map_eq_some'.mp hgw with ⟨g, hg, hgst⟩
      simp only [gwStatusOf]
      rw [List.find?_append, hg, Option.or_some, Option.map_some', hgst]
    · exact hInv
  | gwList now =>
    intro p hp cid hcid hterm
    have hgw := hInv p hp cid hcid hterm
    rcases Option.map_eq_some'.mp hgw with ⟨g, hg, hgst⟩
    have hgp : g.status ≠ PaymentStatus.pending := by rw [hgst]; exact hterm
    simp only [stepOp, gwStatusOf]
    rw [resolved_find?_of_terminal delay now s.gw cid hg hgp,
      Option.map_some', hgst]
  | engineSubmit sub now fail =>
    simp only [stepOp]
    split
    · intro p hp cid hcid hterm
      simp only [create_payment_err] at hp
      rcases List.mem_append.mp hp with hp' | hp'
      · exact hInv p hp' cid hcid hterm
      · rw [List.mem_singleton.mp hp'] at hcid
        cases hcid
    · intro p hp cid hcid hterm
      simp only [create_payment_ok] at hp
      rcases List.mem_append.mp hp with hp' | hp'
      · have hgw := hInv p hp' cid hcid hterm
        rcases Option.map_eq_some'.mp hgw with ⟨g, hg, hgst⟩
        simp only [gwStatusOf]
        rw [List.find?_append, hg, Option.or_some, Option.map_some', hgst]
      · exfalso
        apply hterm
        rw [List.mem_singleton.mp hp']
        rfl
  | engineLookup j now fail =>
    simp only [stepOp]
    split
    · exact hInv
    · rcases get_payment_db_cases j now
          (TransportResult.ok
            ((get_all_statuses delay now s.gw).map toStatusEntry))
          s.localStore with
        hdb | ⟨p₀, cid₀, entries, e, hfind, hcid₀, hgwr, hent, hstne, hrc, hdb⟩
      · intro p hp cid hcid hterm
        rw [hdb] at hp
        have hgw := hInv p hp cid hcid hterm
        rcases Option.map_eq_some'.mp hgw with ⟨g, hg, hgst⟩
        have hgp : g.status ≠ PaymentStatus.pending := by
          rw [hgst]; exact hterm
        simp only [gwStatusOf]
        split
        · rw [resolved_find?_of_terminal delay now s.gw cid hg hgp,
            Option.map_some', hgst]
        · rw [hg, Option.map_some', hgst]
      · intro p hp cid hcid hterm
        rw [hdb] at hp
        rcases List.mem_map.mp hp with ⟨q, hq, hupd⟩
        simp only [gwStatusOf, hrc, if_true]
        have hE : (get_all_statuses delay now s.gw).map toStatusEntry =
            entries := by
          injection hgwr
        by_cases hqj : (q.id == j) = true
        · rw [if_pos hqj] at hupd
          rw [← hupd] at hcid hterm ⊢
          have hcid' : p₀.confirmation_id = some cid := hcid
          rw [hcid₀] at hcid'
          have hcc : cid₀ = cid := Option.some.inj hcid'
          subst hcc
          rw [← hE, entry_find?_map] at hent
          rcases Option.map_eq_some'.mp hent with ⟨g, hg, hge⟩
          rw [hg, Option.map_some']
          have : g.status = e.status := by rw [← hge]; rfl
          rw [this]
        · rw [if_neg hqj] at hupd
          rw [← hupd] at hcid hterm ⊢
          have hgw := hInv q hq cid hcid hterm
          rcases Option.map_eq_some'.mp hgw with ⟨g, hg, hgst⟩
          have hgp : g.status ≠ PaymentStatus.pending := by
            rw [hgst]; exact hterm
          rw [resolved_find?_of_terminal delay now s.gw cid hg hgp,
            Option.map_some', hgst]

/-- The reconciliation link invariant holds in every reachable state. -/
theorem linkInv_run (delay : Int) (ops : List Op) :
    LinkInv (run delay ops) := by
  have hstep : ∀ (l : List Op) (s : SysState), LinkInv s →
      LinkInv (l.foldl (stepOp delay) s) := by
    intro l
    induction l with
    | nil => intro s hs; exact hs
    | cons op t ih =>
      intro s hs
      exact ih _ (linkInv_step delay s op hs)
  apply hstep
  intro p hp cid hcid hterm
  cases hp

/-- C5: under every reachable sequence of operations (gateway accept and
list-all, engine submit and lookup), both the gateway-side and the
local-side statuses follow the one-way machine
pending → {settled, returned, failed}: a record that holds a terminal
status keeps it through any further operation (so a record transitions at
most once), and a record that newly appears does so with status pending. -/
theorem c5_state_machine (delay : Int) (ops : List Op) (op : Op) :
    (∀ c st, st ≠ PaymentStatus.pending →
      gwStatusOf (run delay ops) c = some st →
      gwStatusOf (run delay (ops ++ [op])) c = some st) ∧
    (∀ i st, st ≠ PaymentStatus.pending →
      localStatusOf (run delay ops) i = some st →
      localStatusOf (run delay (ops ++ [op])) i = some st) ∧
    (∀ c, gwStatusOf (run delay ops) c = none →
      gwStatusOf (run delay (ops ++ [op])) c = none ∨
      gwStatusOf (run delay (ops ++ [op])) c = some PaymentStatus.pending) ∧
    (∀ i, localStatusOf (run delay ops) i = none →
      localStatusOf (run delay (ops ++ [op])) i = none ∨
      localStatusOf (run delay (ops ++ [op])) i = some PaymentStatus.pending) := by
  have hrun : run delay (ops ++ [op]) = stepOp delay (run delay ops) op := by
    simp [run, List.foldl_append]
  rw [hrun]
  refine ⟨?_, ?_, ?_, ?_⟩
  · intro c st hst h
    exact gw_step_absorbing delay (run delay ops) op c st hst h
  · intro i st hst h
    exact local_step_absorbing delay (run delay ops) op i st
      (linkInv_run delay ops) hst h
  · intro c h
    exact gw_step_fresh delay (run delay ops) op c h
  · intro i h
    exact local_step_fresh delay (run delay ops) op i h

/-- Witness for C5: with delay 0, submit through the engine and look the
record up once (which settles it, receiver ending in '2'); a further lookup
keeps the local record settled. -/
theorem c5_state_machine_witness :
    localStatusOf (run 0
        ([Op.engineSubmit ⟨['a'], ['2'], 1, none⟩ 0 false,
          Op.engineLookup 0 0 false] ++ [Op.engineLookup 0 1 false])) 0 =
      some PaymentStatus.settled :=
  (c5_state_machine 0
      [Op.engineSubmit ⟨['a'], ['2'], 1, none⟩ 0 false,
        Op.engineLookup 0 0 false]
      (Op.engineLookup 0 1 false)).2.1 0 PaymentStatus.settled
    (by decide) (by decide)

end Payments
